import Mathlib

/-!
Shallow embedding of `@all_thing_downloader_bot.py` (a Telegram media
downloader bot) and verification of its specification claims.

Conventions of the embedding:
* Python `int` is Lean `Int`; Python truthiness of an int (`if not height`)
  is modelled as an explicit `= 0` test.
* A format descriptor is reduced to its `"height"` field: `Option Int` is
  `some h` when the field is present and an `int`, `none` otherwise
  (the source only ever reads `f.get("height")` under an `isinstance` guard).
* Python `dict` (insertion ordered) is an association list in insertion
  order; `dict.pop`, `dict[k] = v` (overwrite-in-place) and insertion-order
  iteration are modelled literally.
* A `tempfile.TemporaryDirectory` is identified by a numeric handle; a call
  to `.cleanup()` is recorded as an event (appended to a list), so
  "released exactly once" becomes a count of recorded events.
* Python `.sort()` on a list of distinct ints is modelled by insertion
  sort: both produce the unique ascending reordering.
* Awaited Telegram calls are driven by an explicit environment (oracle)
  choosing, per call, whether the call succeeds or raises.
-/

/-! ### String utilities (structural, so the kernel can evaluate them) -/

/-- Split a character list at every occurrence of `c`
(Python `str.split(c)` on the character level). -/
def splitOnCharAux (c : Char) (cs : List Char) (cur : List Char) :
    List (List Char) :=
  match cs with
  | [] => [cur.reverse]
  | x :: rest =>
      if x = c then cur.reverse :: splitOnCharAux c rest []
      else splitOnCharAux c rest (x :: cur)

/-- Python `s.split(c)` for a one-character separator. -/
def splitOnChar (c : Char) (s : String) : List String :=
  (splitOnCharAux c s.toList []).map (fun l => String.mk l)

/-- Does `pat` occur at the head of `cs`? -/
def listHasPrefixB : List Char → List Char → Bool
  | [], _ => true
  | _ :: _, [] => false
  | p :: ps, x :: xs => p == x && listHasPrefixB ps xs

/-- Does `pat` occur anywhere inside `cs`? -/
def listHasInfixB (pat : List Char) : List Char → Bool
  | [] => pat.isEmpty
  | x :: rest => listHasPrefixB pat (x :: rest) || listHasInfixB pat rest

/-! ### Format selection (`build_format_string`, source lines 106-109) -/

/-- Source `build_format_string(height)`: `None` or `0` (Python falsy int)
yield the unconstrained expression, otherwise the height-constrained one. -/
def build_format_string (height : Option Int) : String :=
  match height with
  | none => "bestvideo*+bestaudio/best"
  | some h =>
      if h = 0 then "bestvideo*+bestaudio/best"
      else "bestvideo*[height<=?" ++ toString h ++ "]+bestaudio/best[height<=?"
             ++ toString h ++ "]"

/-- Alternative clauses of a yt-dlp format expression: split on `/`. -/
def altClauses (s : String) : List String := splitOnChar '/' s

/-- Merge components of one alternative clause: split on `+`. -/
def mergeComponents (s : String) : List String := splitOnChar '+' s

/-- Does a format fragment carry a height constraint `[height<=?...]`? -/
def hasHeightFilter (s : String) : Bool :=
  listHasInfixB "[height<=?".toList s.toList

/-- Modelled from the spec: the spec's reading of the height-constrained
expression — every merge component of the primary clause carries a height
constraint ("constraining both the video and the audio stream") and the
fallback (final) clause is the unconstrained `best`. -/
def specHeightExprShape (e : String) : Prop :=
  (∀ c ∈ mergeComponents ((altClauses e).headI), hasHeightFilter c = true) ∧
  (altClauses e).getLast? = some "best"

instance (e : String) : Decidable (specHeightExprShape e) := by
  unfold specHeightExprShape; infer_instance

/-! ### Resolution candidates (`unique_sorted_heights`, source lines 111-115) -/

/-- Source `unique_sorted_heights(formats)`: set-comprehension over the int
heights (deduplication), Python filter `if h and h >= 240`, then `.sort()`
ascending.  The Python `set` iteration order is irrelevant because the
result is sorted; deduplication is `List.dedup`. -/
def unique_sorted_heights (formats : List (Option Int)) : List Int :=
  let collected := (formats.filterMap id).dedup
  let filtered := collected.filter (fun h => decide (¬ h = 0 ∧ 240 ≤ h))
  filtered.insertionSort (· ≤ ·)

/-! ### Menu building (`handle_text`, source lines 204-218) -/

/-- The fixed preferred list `wanted` from source line 205. -/
def wantedHeights : List Int := [240, 360, 480, 720, 1080, 1440, 2160]

/-- Source lines 206-208: intersect candidates with `wanted` preserving
`wanted` order; on empty intersection fall back to `heights[-3:]` when more
than three candidates exist, else all candidates. -/
def display_heights (heights : List Int) : List Int :=
  let d := wantedHeights.filter (fun h => heights.contains h)
  if d.isEmpty then
    if 3 < heights.length then heights.drop (heights.length - 3) else heights
  else d

/-- A menu button: a concrete height, or the synthetic best option. -/
inductive Btn where
  | height (h : Int)
  | best
deriving DecidableEq, Repr

/-- Source lines 210-218: accumulate buttons into rows of three, flush the
final partial row, then append the `best` row. -/
def buildRows (hs : List Int) (row : List Btn) (buttons : List (List Btn)) :
    List (List Btn) :=
  match hs with
  | [] => (if row.isEmpty then buttons else buttons ++ [row]) ++ [[Btn.best]]
  | h :: rest =>
      let row2 := row ++ [Btn.height h]
      if row2.length = 3 then buildRows rest [] (buttons ++ [row2])
      else buildRows rest row2 buttons

/-- The rendered resolution menu for a candidate list. -/
def menuRows (heights : List Int) : List (List Btn) :=
  buildRows (display_heights heights) [] []

/-- The menu read as a flat list of entries (row-major). -/
def menuFlat (heights : List Int) : List Btn := (menuRows heights).flatten

/-! ### Job registry (`store_new_job` / `pop_job`, source lines 137-154) -/

/-- A pending download job: the source URL and the handle of its scratch
`TemporaryDirectory` (source line 140 stores exactly these two fields). -/
structure Job where
  url : String
  tmpdir : Nat
deriving DecidableEq, Repr

/-- Python `store[token] = job`: overwrite in place when the key exists
(keeping its insertion position), else append. -/
def dictInsert (store : List (String × Job)) (k : String) (v : Job) :
    List (String × Job) :=
  if store.any (fun p => p.1 = k) then
    store.map (fun p => if p.1 = k then (k, v) else p)
  else store ++ [(k, v)]

/-- Python `store.pop(k, None)`: remove the first binding of `k` and return
it, or return `none` leaving the dict unchanged. -/
def dictPop (store : List (String × Job)) (k : String) :
    Option Job × List (String × Job) :=
  match store with
  | [] => (none, [])
  | p :: rest =>
      if p.1 = k then (some p.2, rest)
      else
        let r := dictPop rest k
        (r.1, p :: r.2)

/-- Registry state: the `dl_store` dict plus the trace of `.cleanup()`
calls performed so far (one handle per call, in order). -/
structure RegState where
  store : List (String × Job)
  released : List Nat
deriving DecidableEq, Repr

/-- Source lines 143-149: for each of the first `len(store) - 50` keys (in
insertion order), pop it and call `.cleanup()` on its tmpdir. -/
def evictKeys (keys : List String) (s : RegState) : RegState :=
  match keys with
  | [] => s
  | k :: ks =>
      let r := dictPop s.store k
      match r.1 with
      | some job => evictKeys ks ⟨r.2, s.released ++ [job.tmpdir]⟩
      | none => evictKeys ks ⟨r.2, s.released⟩

/-- Source `store_new_job(user_data, url, tmpdir)` (lines 137-150), with
the `secrets.token_urlsafe(8)` result supplied as the `token` argument:
insert, then if the dict exceeds 50 entries evict the oldest down to 50. -/
def store_new_job (s : RegState) (token url : String) (tmpdir : Nat) :
    RegState :=
  let store2 := dictInsert s.store token ⟨url, tmpdir⟩
  if 50 < store2.length then
    evictKeys ((store2.map Prod.fst).take (store2.length - 50))
      ⟨store2, s.released⟩
  else ⟨store2, s.released⟩

/-- Source `pop_job(user_data, token)` (lines 152-154):
`store.pop(token, None)`. -/
def pop_job (s : RegState) (token : String) : Option Job × RegState :=
  let r := dictPop s.store token
  (r.1, ⟨r.2, s.released⟩)

/-- The keys of a registry store, in insertion order. -/
def storeKeys (store : List (String × Job)) : List String := store.map Prod.fst

/-- Fold a batch of `(token, url, tmpdir)` insertions through
`store_new_job`. -/
def insertAll (s : RegState) (jobs : List (String × String × Nat)) : RegState :=
  jobs.foldl (fun st j => store_new_job st j.1 j.2.1 j.2.2) s

/-- The store entry a `(token, url, tmpdir)` triple creates. -/
def entryOf (j : String × String × Nat) : String × Job := (j.1, ⟨j.2.1, j.2.2⟩)

/-! ### Delivery (`_send_with_retries_as_video_or_doc`, lines 231-259) -/

/-- Outcome of one awaited Telegram send call. -/
inductive Outcome where
  | success
  | timedOut
  | otherError
deriving DecidableEq, Repr

/-- Observable events of the delivery procedure. -/
inductive Ev where
  | sendAction
  | tryVideo (attempt : Nat)
  | tryDoc (attempt : Nat)
  | sleep (seconds : Nat)
deriving DecidableEq, Repr

/-- How the delivery procedure finished. -/
inductive DeliverResult where
  | sentVideo
  | sentDoc
  | raisedTimeout
  | raisedOther
  | fellThrough
deriving DecidableEq, Repr

/-- Source lines 240-249 (`for attempt in range(3)` over `reply_video`):
success returns; `TimedOut` on the last attempt breaks to the document
loop, otherwise sleeps `2 * (attempt + 1)` and retries; any other
exception breaks to the document loop at once.  `none` means the loop was
left without returning. -/
def videoPhase (v : Nat → Outcome) (attempts : List Nat) :
    List Ev × Option DeliverResult :=
  match attempts with
  | [] => ([], none)
  | a :: rest =>
      match v a with
      | Outcome.success => ([Ev.tryVideo a], some DeliverResult.sentVideo)
      | Outcome.timedOut =>
          if a = 2 then ([Ev.tryVideo a], none)
          else
            let r := videoPhase v rest
            (Ev.tryVideo a :: Ev.sleep (2 * (a + 1)) :: r.1, r.2)
      | Outcome.otherError => ([Ev.tryVideo a], none)

/-- Source lines 252-259 (`for attempt in range(3)` over `reply_document`):
success returns; `TimedOut` on the last attempt re-raises, otherwise sleeps
and retries; a non-timeout exception propagates (it is not caught).
`fellThrough` models the (unreachable for `range(3)`) implicit `return
None` after the loop. -/
def docPhase (d : Nat → Outcome) (attempts : List Nat) :
    List Ev × DeliverResult :=
  match attempts with
  | [] => ([], DeliverResult.fellThrough)
  | a :: rest =>
      match d a with
      | Outcome.success => ([Ev.tryDoc a], DeliverResult.sentDoc)
      | Outcome.timedOut =>
          if a = 2 then ([Ev.tryDoc a], DeliverResult.raisedTimeout)
          else
            let r := docPhase d rest
            (Ev.tryDoc a :: Ev.sleep (2 * (a + 1)) :: r.1, r.2)
      | Outcome.otherError => ([Ev.tryDoc a], DeliverResult.raisedOther)

/-- Source `_send_with_retries_as_video_or_doc` (lines 231-259): best-effort
`send_action`, then the video loop, then — if the video loop fell through —
the document loop. -/
def sendWithRetries (v d : Nat → Outcome) : List Ev × DeliverResult :=
  let vr := videoPhase v [0, 1, 2]
  match vr.2 with
  | some res => (Ev.sendAction :: vr.1, res)
  | none =>
      let dr := docPhase d [0, 1, 2]
      (Ev.sendAction :: (vr.1 ++ dr.1), dr.2)

/-- Count of video attempts in an event trace. -/
def numVideoTries (evs : List Ev) : Nat :=
  evs.countP (fun e => match e with | Ev.tryVideo _ => true | _ => false)

/-- Count of document attempts in an event trace. -/
def numDocTries (evs : List Ev) : Nat :=
  evs.countP (fun e => match e with | Ev.tryDoc _ => true | _ => false)

/-! ### Python scalar conversions and parsing helpers -/

/-- ASCII whitespace, as stripped by Python `int(str)`. -/
def isPySpace (c : Char) : Bool :=
  c = ' ' || c = '\t' || c = '\n' || c = '\r' || c = '\x0b' || c = '\x0c'

/-- Drop leading whitespace. -/
def dropLeadingWs : List Char → List Char
  | [] => []
  | c :: rest => if isPySpace c then dropLeadingWs rest else c :: rest

/-- Strip whitespace from both ends (Python `int` tolerates it). -/
def stripWs (cs : List Char) : List Char :=
  (dropLeadingWs (dropLeadingWs cs).reverse).reverse

/-- Digits after the first one, allowing single underscores between digits
(Python numeric literals / `int(str)` accept `"7_2_0"`). -/
def digitsAux : List Char → Nat → Option Nat
  | [], acc => some acc
  | '_' :: c :: rest, acc =>
      if c.isDigit then digitsAux rest (acc * 10 + (c.toNat - 48)) else none
  | c :: rest, acc =>
      if c.isDigit then digitsAux rest (acc * 10 + (c.toNat - 48)) else none

/-- A nonempty run of decimal digits (with medial underscores). -/
def pyNatChars : List Char → Option Nat
  | [] => none
  | c :: rest => if c.isDigit then digitsAux rest (c.toNat - 48) else none

/-- Python `int(s)` on a string: strip whitespace, optional sign, decimal
digits; `none` models a raised `ValueError`. -/
def pyIntChars (cs : List Char) : Option Int :=
  match stripWs cs with
  | '+' :: rest => (pyNatChars rest).map (fun n => (n : Int))
  | '-' :: rest => (pyNatChars rest).map (fun n => -(n : Int))
  | rest => (pyNatChars rest).map (fun n => (n : Int))

/-- Join character lists with `'|'` (inverse of a pipe split). -/
def joinPipe : List (List Char) → List Char
  | [] => []
  | [x] => x
  | x :: xs => x ++ '|' :: joinPipe xs

/-- Python `s.split("|", 2)` (source line 267): at most three fields, any
further `|` separators are folded into the third field. -/
def pySplit2 (s : String) : List String :=
  match splitOnCharAux '|' s.toList [] with
  | a :: b :: c :: rest => [String.mk a, String.mk b, String.mk (joinPipe (c :: rest))]
  | l => l.map (fun x => String.mk x)

/-- Source lines 289-298: `"best"` means no ceiling; a mode starting with
`"h"` parses the rest as an int, a `ValueError` also meaning no ceiling;
anything else means no ceiling. -/
def chosen_height_of_mode (mode : String) : Option Int :=
  if mode = "best" then none
  else
    match mode.toList with
    | 'h' :: rest =>
        match pyIntChars rest with
        | some n => some n
        | none => none
    | _ => none

/-- Case-insensitive comparison of a text character against a lowercase
pattern character (the URL regex is compiled with `re.IGNORECASE`). -/
def lowEq (c pat : Char) : Bool := c.toLower = pat

/-- Match `://` at the head, returning matched characters and remainder. -/
def matchColonSlashSlash : List Char → Option (List Char × List Char)
  | a :: b :: c :: rest =>
      if a = ':' && b = '/' && c = '/' then some ([a, b, c], rest) else none
  | _ => none

/-- The maximal run of non-whitespace characters at the head (`[^\s]+`
greedy), with the remainder. -/
def takeNonWs : List Char → List Char × List Char
  | [] => ([], [])
  | c :: rest =>
      if isPySpace c then ([], c :: rest)
      else
        let r := takeNonWs rest
        (c :: r.1, r.2)

/-- Try to match the regex `https?://[^\s]+` at this exact position
(case-insensitive scheme, at least one non-space character after `//`). -/
def matchUrlAt (cs : List Char) : Option (List Char) :=
  match cs with
  | c1 :: c2 :: c3 :: c4 :: rest =>
      if lowEq c1 'h' && lowEq c2 't' && lowEq c3 't' && lowEq c4 'p' then
        let core : Option (List Char × List Char) :=
          match rest with
          | c5 :: rest2 =>
              if lowEq c5 's' then
                (matchColonSlashSlash rest2).map
                  (fun (r : List Char × List Char) => (c5 :: r.1, r.2))
              else matchColonSlashSlash rest
          | [] => none
        match core with
        | some r =>
            let t := takeNonWs r.2
            if t.1.isEmpty then none
            else some (c1 :: c2 :: c3 :: c4 :: (r.1 ++ t.1))
        | none => none
      else none
  | _ => none

/-- Leftmost regex match: try every start position left to right. -/
def findUrl : List Char → Option (List Char)
  | [] => none
  | c :: rest =>
      match matchUrlAt (c :: rest) with
      | some m => some m
      | none => findUrl rest

/-- Source `extract_first_url(text)` (lines 68-72): empty text yields
nothing, otherwise the first `https?://[^\s]+` match. -/
def extract_first_url (text : String) : Option String :=
  if text = "" then none
  else (findUrl text.toList).map (fun m => String.mk m)

/-- Source `pick_filename_from_dir(target_dir, media_id)` (lines 96-104)
with the directory listing supplied as a list of file names: empty listing
yields nothing; a truthy (nonempty) `media_id` prefers the first name
containing it; otherwise the first listed name. -/
def pick_filename_from_dir (files : List String) (media_id : String) :
    Option String :=
  match files with
  | [] => none
  | f :: _ =>
      if media_id ≠ "" then
        match files.find? (fun p => listHasInfixB media_id.toList p.toList) with
        | some p => some p
        | none => some f
      else some f

/-! ### Extractor metadata and the two handlers -/

/-- The fields of one yt-dlp info dict that the handlers read; `formats`
holds the `"height"` field of each entry of `info.get("formats") or []`. -/
structure MediaInfo where
  id : Option String
  display_id : Option String
  title : Option String
  formats : List (Option Int)
deriving DecidableEq, Repr

/-- A probe/fetch result: `entries` is `some l` when the dict has an
`"entries"` key holding a list `l`. -/
structure FetchInfo where
  entries : Option (List MediaInfo)
  base : MediaInfo
deriving DecidableEq, Repr

/-- Source lines 194-195 and 312-313: a nonempty `entries` list narrows the
result to its first element. -/
def narrowInfo (i : FetchInfo) : MediaInfo :=
  match i.entries with
  | some (e :: _) => e
  | _ => i.base

/-- Python `a or default` for an optional string field (`None` and `""` are
both falsy). -/
def orStr (a : Option String) (dflt : String) : String :=
  match a with
  | some s => if s = "" then dflt else s
  | none => dflt

/-- User-visible status messages (identified by tag, not text). -/
inductive Msg where
  | invalidButton
  | expired
  | internalNoJobData
  | downloading
  | downloadNoData
  | fileNotFound
  | done
  | sendFailed
  | downloadFailed
  | askForLink
  | analyzing
  | probeNoInfo
  | menuShown (rows : List (List Btn))
  | probeError
deriving DecidableEq, Repr

/-- Oracle driving one run of `on_download_choice`: whether `query.answer()`
succeeds, whether the n-th `edit_message_text` call of the run succeeds,
the `ytdlp_extract(download=True)` outcome (`none` = raised,
`some none` = returned `None`), the scratch-directory listing after the
fetch, whether the picked file's `exists()` check passes, and the per-
attempt outcomes of `reply_video` / `reply_document`. -/
structure ChoiceEnv where
  answerOk : Bool
  editOk : Nat → Bool
  fetch : Option (Option FetchInfo)
  files : List String
  fileExists : Bool
  video : Nat → Outcome
  doc : Nat → Outcome

/-- Result of one handler run: final registry state (with its cleanup
trace), the status-message edits attempted in order, the format strings
passed to a downloading `ytdlp_extract`, and whether the handler exited by
an uncaught exception. -/
structure RunRes where
  reg : RegState
  msgs : List Msg
  fetches : List String
  raised : Bool
deriving Repr

/-- The `try`/`except`/`finally` block of source lines 305-340, entered
with the popped job and the chosen format string: every branch appends
exactly one cleanup of `job.tmpdir` (the `finally`), records the fetch
attempt, and swallows all exceptions (`raised = false`). -/
def guardedBlock (env : ChoiceEnv) (reg1 : RegState) (job : Job)
    (fmt : String) : RunRes :=
  let regF : RegState := ⟨reg1.store, reg1.released ++ [job.tmpdir]⟩
  match env.fetch with
  | none => ⟨regF, [Msg.downloadFailed], [fmt], false⟩
  | some none =>
      if env.editOk 1 then ⟨regF, [Msg.downloadNoData], [fmt], false⟩
      else ⟨regF, [Msg.downloadNoData, Msg.downloadFailed], [fmt], false⟩
  | some (some info) =>
      match pick_filename_from_dir env.files
        (orStr (narrowInfo info).id (orStr (narrowInfo info).display_id ""))
        with
      | none =>
          if env.editOk 1 then ⟨regF, [Msg.fileNotFound], [fmt], false⟩
          else ⟨regF, [Msg.fileNotFound, Msg.downloadFailed], [fmt], false⟩
      | some _ =>
          if env.fileExists = false then
            if env.editOk 1 then ⟨regF, [Msg.fileNotFound], [fmt], false⟩
            else ⟨regF, [Msg.fileNotFound, Msg.downloadFailed], [fmt], false⟩
          else
            match (sendWithRetries env.video env.doc).2 with
            | DeliverResult.raisedTimeout =>
                if env.editOk 1 then ⟨regF, [Msg.sendFailed], [fmt], false⟩
                else ⟨regF, [Msg.sendFailed, Msg.downloadFailed], [fmt],
                  false⟩
            | DeliverResult.raisedOther =>
                if env.editOk 1 then ⟨regF, [Msg.sendFailed], [fmt], false⟩
                else ⟨regF, [Msg.sendFailed, Msg.downloadFailed], [fmt],
                  false⟩
            | _ =>
                if env.editOk 1 then ⟨regF, [Msg.done], [fmt], false⟩
                else if env.editOk 2 then
                  ⟨regF, [Msg.done, Msg.sendFailed], [fmt], false⟩
                else
                  ⟨regF, [Msg.done, Msg.sendFailed, Msg.downloadFailed],
                   [fmt], false⟩

/-- Source `on_download_choice` (lines 261-340).  Exits are literal: each
branch records the edits it attempts; an edit outside any `try` that fails
raises; the `⬇️` status edit of line 301 sits between `pop_job` and the
guarded `try`/`finally` block. -/
def on_download_choice (env : ChoiceEnv) (reg : RegState) (payload : String) :
    RunRes :=
  if env.answerOk = false then
    ⟨reg, [], [], true⟩
  else
    match pySplit2 payload with
    | [tag, token, mode] =>
        if tag ≠ "dl" then
          ⟨reg, [Msg.invalidButton], [], env.editOk 0 = false⟩
        else
          let popped := pop_job reg token
          match popped.1 with
          | none =>
              ⟨popped.2, [Msg.expired], [], env.editOk 0 = false⟩
          | some job =>
              let reg1 := popped.2
              if job.url = "" then
                if env.editOk 0 then
                  ⟨⟨reg1.store, reg1.released ++ [job.tmpdir]⟩,
                   [Msg.internalNoJobData], [], false⟩
                else ⟨reg1, [Msg.internalNoJobData], [], true⟩
              else
                if env.editOk 0 = false then
                  ⟨reg1, [Msg.downloading], [], true⟩
                else
                  let r := guardedBlock env reg1 job
                    (build_format_string (chosen_height_of_mode mode))
                  ⟨r.reg, Msg.downloading :: r.msgs, r.fetches, r.raised⟩
    | _ => ⟨reg, [Msg.invalidButton], [], env.editOk 0 = false⟩

/-- Oracle driving one run of `handle_text`: whether the n-th
`reply_text`/`edit_text` call of the run succeeds, the
`ytdlp_extract(download=False)` outcome, and the token drawn by
`secrets.token_urlsafe(8)`. -/
structure TextEnv where
  replyOk : Nat → Bool
  probe : Option (Option FetchInfo)
  token : String

/-- Source `handle_text` (lines 172-229), with the fresh
`TemporaryDirectory` handle supplied as `nextTmp`.  Branch structure is
literal: the `tmpdir.cleanup()` of lines 191 and 229 are the only releases;
the `except` block's own `edit_text` (line 228) precedes the line-229
cleanup, so its failure skips the release. -/
def handle_text (env : TextEnv) (reg : RegState) (text : String)
    (nextTmp : Nat) : RunRes :=
  match extract_first_url text with
  | none =>
      ⟨reg, [Msg.askForLink], [], env.replyOk 0 = false⟩
  | some url =>
      if env.replyOk 0 = false then
        ⟨reg, [Msg.analyzing], [], true⟩
      else
        match env.probe with
        | none =>
            if env.replyOk 1 then
              ⟨⟨reg.store, reg.released ++ [nextTmp]⟩,
               [Msg.analyzing, Msg.probeError], [], false⟩
            else ⟨reg, [Msg.analyzing, Msg.probeError], [], true⟩
        | some none =>
            if env.replyOk 1 then
              ⟨⟨reg.store, reg.released ++ [nextTmp]⟩,
               [Msg.analyzing, Msg.probeNoInfo], [], false⟩
            else if env.replyOk 2 then
              ⟨⟨reg.store, reg.released ++ [nextTmp]⟩,
               [Msg.analyzing, Msg.probeNoInfo, Msg.probeError], [], false⟩
            else
              ⟨reg, [Msg.analyzing, Msg.probeNoInfo, Msg.probeError], [],
               true⟩
        | some (some info) =>
            let heights := unique_sorted_heights (narrowInfo info).formats
            let rows := menuRows heights
            let reg2 := store_new_job reg env.token url nextTmp
            if env.replyOk 1 then
              ⟨reg2, [Msg.analyzing, Msg.menuShown rows], [], false⟩
            else if env.replyOk 2 then
              ⟨⟨reg2.store, reg2.released ++ [nextTmp]⟩,
               [Msg.analyzing, Msg.menuShown rows, Msg.probeError], [], false⟩
            else
              ⟨reg2, [Msg.analyzing, Msg.menuShown rows, Msg.probeError], [],
               true⟩

/-! ### Helper lemmas -/

/-- The filtered, deduplicated height list before sorting. -/
def heightsPreSort (formats : List (Option Int)) : List Int :=
  ((formats.filterMap id).dedup).filter (fun h => decide (¬ h = 0 ∧ 240 ≤ h))

lemma unique_sorted_heights_eq (formats : List (Option Int)) :
    unique_sorted_heights formats =
      (heightsPreSort formats).insertionSort (· ≤ ·) := rfl

lemma heightsPreSort_nodup (formats : List (Option Int)) :
    (heightsPreSort formats).Nodup :=
  List.Nodup.filter _ (List.nodup_dedup _)

lemma heightsPreSort_perm {f1 f2 : List (Option Int)} (hp : f1.Perm f2) :
    (heightsPreSort f1).Perm (heightsPreSort f2) :=
  ((hp.filterMap id).dedup).filter _

lemma unique_sorted_heights_sorted (formats : List (Option Int)) :
    List.Sorted (· ≤ ·) (unique_sorted_heights formats) :=
  List.sorted_insertionSort _ _

/-! ### Claim theorems -/

/-- C5: `unique_sorted_heights` returns the integer heights filtered to
≥ 240, deduplicated and sorted ascending; its output is invariant under
permutation of the input; and on heights 144, 240, 480, 480, 720, 1080 it
returns `[240, 480, 720, 1080]`. -/
theorem c5_unique_sorted_heights_spec :
    (∀ formats : List (Option Int),
      List.Sorted (· ≤ ·) (unique_sorted_heights formats) ∧
      (unique_sorted_heights formats).Nodup ∧
      (∀ h : Int,
        h ∈ unique_sorted_heights formats ↔ some h ∈ formats ∧ 240 ≤ h) ∧
      (∀ formats2 : List (Option Int), formats.Perm formats2 →
        unique_sorted_heights formats = unique_sorted_heights formats2)) ∧
    unique_sorted_heights [some 144, some 240, some 480, some 480, some 720,
      some 1080] = [240, 480, 720, 1080] := by
  constructor
  · intro formats
    refine ⟨unique_sorted_heights_sorted formats, ?_, ?_, ?_⟩
    · exact ((List.perm_insertionSort _ _).symm).nodup
        (heightsPreSort_nodup formats)
    · intro h
      rw [unique_sorted_heights_eq, List.mem_insertionSort]
      unfold heightsPreSort
      simp only [List.mem_filter, List.mem_dedup, List.mem_filterMap,
        id_eq, decide_eq_true_eq]
      constructor
      · rintro ⟨⟨a, ha, rfl⟩, _, h240⟩
        exact ⟨ha, h240⟩
      · rintro ⟨ha, h240⟩
        exact ⟨⟨some h, ha, rfl⟩, by omega, h240⟩
    · intro f2 hp
      refine List.eq_of_perm_of_sorted ?_
        (unique_sorted_heights_sorted formats)
        (unique_sorted_heights_sorted f2)
      exact ((List.perm_insertionSort _ _).trans
        (heightsPreSort_perm hp)).trans (List.perm_insertionSort _ _).symm
  · decide

/-- C5 witness: order-independence applied at a concrete permuted pair. -/
theorem c5_unique_sorted_heights_witness :
    unique_sorted_heights [some 720, some 240, none] =
      unique_sorted_heights [some 240, none, some 720] :=
  (c5_unique_sorted_heights_spec.1 [some 720, some 240, none]).2.2.2
    [some 240, none, some 720] (by decide)

lemma flatten_buildRows (hs : List Int) :
    ∀ (row : List Btn) (buttons : List (List Btn)),
    (buildRows hs row buttons).flatten =
      buttons.flatten ++ row ++ hs.map Btn.height ++ [Btn.best] := by
  induction hs with
  | nil =>
      intro row buttons
      by_cases h : row.isEmpty
      · have hrow : row = [] := List.isEmpty_iff.mp h
        simp [buildRows, h, hrow]
      · simp [buildRows, h]
  | cons a rest ih =>
      intro row buttons
      by_cases h : row.length = 2
      · simp [buildRows, h, ih]
      · simp [buildRows, h, ih]

/-- C6: the displayed heights are the candidates intersected with the
preferred list in preferred order; on empty intersection the last three of
the candidate list (all of it when three or fewer, i.e. `drop (length-3)`);
the synthetic best button is always the final flattened menu entry; and
candidates `[240, 360, 720, 2160]` display as exactly those plus best. -/
theorem c6_menu_display_policy :
    (∀ heights : List Int,
      menuFlat heights =
        (display_heights heights).map Btn.height ++ [Btn.best] ∧
      (menuFlat heights).getLast? = some Btn.best ∧
      (wantedHeights.filter (fun h => heights.contains h) ≠ [] →
        display_heights heights =
          wantedHeights.filter (fun h => heights.contains h)) ∧
      (wantedHeights.filter (fun h => heights.contains h) = [] →
        display_heights heights = heights.drop (heights.length - 3))) ∧
    menuFlat [240, 360, 720, 2160] =
      [Btn.height 240, Btn.height 360, Btn.height 720, Btn.height 2160,
       Btn.best] := by
  constructor
  · intro heights
    have hf : menuFlat heights =
        (display_heights heights).map Btn.height ++ [Btn.best] := by
      unfold menuFlat menuRows
      rw [flatten_buildRows]
      simp
    refine ⟨hf, ?_, ?_, ?_⟩
    · rw [hf]
      simp
    · intro hne
      simp only [display_heights]
      rw [if_neg (by simpa [List.isEmpty_iff] using hne)]
    · intro he
      unfold display_heights
      simp only [he, List.isEmpty_nil, if_true]
      by_cases h3 : 3 < heights.length
      · simp [h3]
      · have hz : heights.length - 3 = 0 := by omega
        simp [h3, hz]
  · decide

/-- C6 witness: the empty-intersection fallback at a concrete candidate
list outside the preferred heights. -/
theorem c6_menu_display_policy_witness :
    display_heights [250, 260, 270, 280] = [260, 270, 280] :=
  (((c6_menu_display_policy.1 [250, 260, 270, 280]).2.2.2)
    (by decide)).trans (by decide)

/-- C3 counterexample: at h = 720 the generated expression's audio merge
component (`bestaudio`) carries no height constraint, and the fallback
clause is the height-constrained `best[height<=?720]` — not the
unconstrained `best` the claim describes. -/
theorem c3_format_string_counterexample :
    build_format_string (some 720) =
      "bestvideo*[height<=?720]+bestaudio/best[height<=?720]" ∧
    ¬ specHeightExprShape (build_format_string (some 720)) ∧
    mergeComponents ((altClauses (build_format_string (some 720))).headI) =
      ["bestvideo*[height<=?720]", "bestaudio"] ∧
    hasHeightFilter "bestaudio" = false ∧
    (altClauses (build_format_string (some 720))).getLast? =
      some "best[height<=?720]" ∧
    hasHeightFilter "best[height<=?720]" = true :=
  ⟨rfl, by decide, by decide, by decide, by decide, by decide⟩

/-- C3 amended: mode best (and the falsy height 0) map to
`bestvideo*+bestaudio/best`; every positive height h maps to
`bestvideo*[height<=?h]+bestaudio/best[height<=?h]`, whose video selector
is height-constrained, whose audio selector is unconstrained, and whose
fallback clause is the height-constrained combined `best[height<=?h]`. -/
theorem c3_format_string_amended :
    build_format_string none = "bestvideo*+bestaudio/best" ∧
    build_format_string (some 0) = "bestvideo*+bestaudio/best" ∧
    ∀ h : Int, 0 < h →
      build_format_string (some h) =
        "bestvideo*[height<=?" ++ toString h ++
          "]+bestaudio/best[height<=?" ++ toString h ++ "]" := by
  refine ⟨rfl, rfl, ?_⟩
  intro h hp
  have hne : ¬ h = 0 := by omega
  simp only [build_format_string]
  rw [if_neg hne]

/-- C3 witness: the amended mapping evaluated at height 720. -/
theorem c3_format_string_witness :
    (0 : Int) < 720 ∧
    build_format_string (some 720) =
      "bestvideo*[height<=?" ++ toString (720 : Int) ++
        "]+bestaudio/best[height<=?" ++ toString (720 : Int) ++ "]" :=
  ⟨by decide, c3_format_string_amended.2.2 720 (by decide)⟩

lemma videoPhase_snd_none (v : Nat → Outcome) (h0 : v 0 ≠ Outcome.success)
    (h1 : v 1 ≠ Outcome.success) (h2 : v 2 ≠ Outcome.success) :
    (videoPhase v [0, 1, 2]).2 = none := by
  rcases e0 : v 0 <;> rcases e1 : v 1 <;> rcases e2 : v 2 <;>
    simp_all [videoPhase]

lemma sendWithRetries_fallthrough (v d : Nat → Outcome)
    (h0 : v 0 ≠ Outcome.success) (h1 : v 1 ≠ Outcome.success)
    (h2 : v 2 ≠ Outcome.success) :
    sendWithRetries v d =
      (Ev.sendAction ::
        ((videoPhase v [0, 1, 2]).1 ++ (docPhase d [0, 1, 2]).1),
       (docPhase d [0, 1, 2]).2) := by
  simp only [sendWithRetries]
  rw [videoPhase_snd_none v h0 h1 h2]

lemma numVideoTries_videoPhase_le (v : Nat → Outcome) (as : List Nat) :
    numVideoTries (videoPhase v as).1 ≤ as.length := by
  induction as with
  | nil => simp [videoPhase, numVideoTries]
  | cons a rest ih =>
      rcases e : v a
      · simp [videoPhase, e, numVideoTries]
      · by_cases ha : a = 2
        · subst ha
          simp [videoPhase, e, numVideoTries]
        · simp only [numVideoTries] at ih
          simp [videoPhase, e, ha, numVideoTries, List.countP_cons]
          omega
      · simp [videoPhase, e, numVideoTries]

lemma numDocTries_videoPhase (v : Nat → Outcome) (as : List Nat) :
    numDocTries (videoPhase v as).1 = 0 := by
  induction as with
  | nil => simp [videoPhase, numDocTries]
  | cons a rest ih =>
      rcases e : v a
      · simp [videoPhase, e, numDocTries]
      · by_cases ha : a = 2
        · subst ha
          simp [videoPhase, e, numDocTries]
        · simp only [numDocTries] at ih
          simp [videoPhase, e, ha, numDocTries, List.countP_cons, ih]
      · simp [videoPhase, e, numDocTries]

lemma numDocTries_docPhase_le (d : Nat → Outcome) (as : List Nat) :
    numDocTries (docPhase d as).1 ≤ as.length := by
  induction as with
  | nil => simp [docPhase, numDocTries]
  | cons a rest ih =>
      rcases e : d a
      · simp [docPhase, e, numDocTries]
      · by_cases ha : a = 2
        · subst ha
          simp [docPhase, e, numDocTries]
        · simp only [numDocTries] at ih
          simp [docPhase, e, ha, numDocTries, List.countP_cons]
          omega
      · simp [docPhase, e, numDocTries]

lemma numVideoTries_docPhase (d : Nat → Outcome) (as : List Nat) :
    numVideoTries (docPhase d as).1 = 0 := by
  induction as with
  | nil => simp [docPhase, numVideoTries]
  | cons a rest ih =>
      rcases e : d a
      · simp [docPhase, e, numVideoTries]
      · by_cases ha : a = 2
        · subst ha
          simp [docPhase, e, numVideoTries]
        · simp only [numVideoTries] at ih
          simp [docPhase, e, ha, numVideoTries, List.countP_cons, ih]
      · simp [docPhase, e, numVideoTries]

lemma numDocTries_docPhase_pos (d : Nat → Outcome) (a : Nat) (as : List Nat) :
    1 ≤ numDocTries (docPhase d (a :: as)).1 := by
  rcases e : d a
  · simp [docPhase, e, numDocTries]
  · by_cases ha : a = 2
    · subst ha
      simp [docPhase, e, numDocTries]
    · simp [docPhase, e, ha, numDocTries, List.countP_cons]
  · simp [docPhase, e, numDocTries]

/-- C4: the video representation is tried at most 3 times with sleeps of
2·(attempt+1) seconds between timed-out attempts; a non-timeout failure on
any video attempt (first, second, or third after two timeouts) proceeds
directly to the first document attempt; whenever no video attempt
succeeds the document phase runs, with the same backoff, and three
document timeouts make the whole delivery raise the timeout. -/
theorem c4_delivery_retry_policy :
    ∀ v d : Nat → Outcome,
      numVideoTries (sendWithRetries v d).1 ≤ 3 ∧
      numDocTries (sendWithRetries v d).1 ≤ 3 ∧
      (v 0 = Outcome.otherError →
        (sendWithRetries v d).1.take 3 =
          [Ev.sendAction, Ev.tryVideo 0, Ev.tryDoc 0]) ∧
      (v 0 = Outcome.timedOut → v 1 = Outcome.otherError →
        (sendWithRetries v d).1.take 5 =
          [Ev.sendAction, Ev.tryVideo 0, Ev.sleep 2, Ev.tryVideo 1,
           Ev.tryDoc 0]) ∧
      (v 0 = Outcome.timedOut → v 1 = Outcome.timedOut →
        v 2 = Outcome.otherError →
        (sendWithRetries v d).1.take 7 =
          [Ev.sendAction, Ev.tryVideo 0, Ev.sleep 2, Ev.tryVideo 1,
           Ev.sleep 4, Ev.tryVideo 2, Ev.tryDoc 0]) ∧
      (v 0 ≠ Outcome.success → v 1 ≠ Outcome.success →
        v 2 ≠ Outcome.success →
        1 ≤ numDocTries (sendWithRetries v d).1) ∧
      (v 0 ≠ Outcome.success → v 1 ≠ Outcome.success →
        v 2 ≠ Outcome.success → d 0 = Outcome.timedOut →
        d 1 = Outcome.timedOut → d 2 = Outcome.timedOut →
        (sendWithRetries v d).2 = DeliverResult.raisedTimeout) ∧
      (v 0 = Outcome.timedOut → v 1 = Outcome.timedOut →
        v 2 = Outcome.timedOut → d 0 = Outcome.timedOut →
        d 1 = Outcome.timedOut → d 2 = Outcome.timedOut →
        sendWithRetries v d =
          ([Ev.sendAction, Ev.tryVideo 0, Ev.sleep 2, Ev.tryVideo 1,
            Ev.sleep 4, Ev.tryVideo 2, Ev.tryDoc 0, Ev.sleep 2,
            Ev.tryDoc 1, Ev.sleep 4, Ev.tryDoc 2],
           DeliverResult.raisedTimeout)) := by
  intro v d
  refine ⟨?_, ?_, ?_, ?_, ?_, ?_, ?_, ?_⟩
  · have hv : numVideoTries (videoPhase v [0, 1, 2]).1 ≤ 3 :=
      numVideoTries_videoPhase_le v [0, 1, 2]
    have hd := numVideoTries_docPhase d [0, 1, 2]
    rcases hm : (videoPhase v [0, 1, 2]).2 with _ | res <;>
      · simp only [sendWithRetries]
        rw [hm]
        simp [numVideoTries, List.countP_cons, List.countP_append,
          -List.countP_eq_zero] at hv hd ⊢
        omega
  · have hv := numDocTries_videoPhase v [0, 1, 2]
    have hd : numDocTries (docPhase d [0, 1, 2]).1 ≤ 3 :=
      numDocTries_docPhase_le d [0, 1, 2]
    rcases hm : (videoPhase v [0, 1, 2]).2 with _ | res <;>
      · simp only [sendWithRetries]
        rw [hm]
        simp [numDocTries, List.countP_cons, List.countP_append,
          -List.countP_eq_zero] at hv hd ⊢
        omega
  · intro h0
    rcases hd0 : d 0 <;>
      simp [sendWithRetries, videoPhase, docPhase, h0, hd0]
  · intro h0 h1
    rcases hd0 : d 0 <;>
      simp [sendWithRetries, videoPhase, docPhase, h0, h1, hd0]
  · intro h0 h1 h2
    rcases hd0 : d 0 <;>
      simp [sendWithRetries, videoPhase, docPhase, h0, h1, h2, hd0]
  · intro h0 h1 h2
    rw [sendWithRetries_fallthrough v d h0 h1 h2]
    refine le_trans (numDocTries_docPhase_pos d 0 [1, 2]) ?_
    unfold numDocTries
    exact List.Sublist.countP_le _
      ((List.sublist_append_right _ _).trans (List.sublist_cons_self _ _))
  · intro h0 h1 h2 hd0 hd1 hd2
    rw [sendWithRetries_fallthrough v d h0 h1 h2]
    simp [docPhase, hd0, hd1, hd2]
  · intro h0 h1 h2 hd0 hd1 hd2
    simp [sendWithRetries, videoPhase, docPhase, h0, h1, h2, hd0, hd1, hd2]

lemma storeKeys_cons (p : String × Job) (rest : List (String × Job)) :
    storeKeys (p :: rest) = p.1 :: storeKeys rest := rfl

lemma dictPop_not_mem : ∀ {store : List (String × Job)} {k : String},
    k ∉ storeKeys store → dictPop store k = (none, store) := by
  intro store
  induction store with
  | nil => intro k _; rfl
  | cons p rest ih =>
      intro k h
      rw [storeKeys_cons, List.mem_cons, not_or] at h
      have hne : ¬ p.1 = k := fun e => h.1 e.symm
      simp [dictPop, hne, ih h.2]

lemma storeKeys_dictPop (k : String) :
    ∀ store : List (String × Job),
      storeKeys (dictPop store k).2 = (storeKeys store).erase k := by
  intro store
  induction store with
  | nil => simp [dictPop, storeKeys]
  | cons p rest ih =>
      by_cases e : p.1 = k
      · subst e
        simp [dictPop, storeKeys_cons, List.erase_cons_head]
      · have hke : ¬ k = p.1 := fun hh => e hh.symm
        simp [dictPop, e, storeKeys_cons, ih, List.erase_cons_tail, hke]

lemma dictPop_fst_of_mem : ∀ {store : List (String × Job)} {k : String}
    {v : Job}, (storeKeys store).Nodup → (k, v) ∈ store →
    (dictPop store k).1 = some v := by
  intro store
  induction store with
  | nil => intro k v _ hm; cases hm
  | cons p rest ih =>
      intro k v hnd hm
      rcases List.mem_cons.mp hm with he | ht
      · rw [← he]
        simp [dictPop]
      · by_cases e : p.1 = k
        · exfalso
          have hk : k ∈ storeKeys rest := by
            have := List.mem_map_of_mem Prod.fst ht
            simpa [storeKeys] using this
          rw [storeKeys_cons] at hnd
          exact (List.nodup_cons.mp hnd).1 (e ▸ hk)
        · simp only [dictPop, e, if_false]
          exact ih (by rw [storeKeys_cons] at hnd
                       exact (List.nodup_cons.mp hnd).2) ht

lemma evictKeys_take : ∀ (n : Nat) (st : List (String × Job))
    (rel : List Nat), n ≤ st.length →
    evictKeys ((st.map Prod.fst).take n) ⟨st, rel⟩ =
      ⟨st.drop n, rel ++ (st.take n).map (fun p => p.2.tmpdir)⟩ := by
  intro n
  induction n with
  | zero => intro st rel _; simp [evictKeys]
  | succ m ih =>
      intro st rel hle
      cases st with
      | nil => simp at hle
      | cons p rest =>
          have hpop : dictPop (p :: rest) p.1 = (some p.2, rest) := by
            simp [dictPop]
          simp only [List.map_cons, List.take_succ_cons, evictKeys, hpop]
          rw [ih rest (rel ++ [p.2.tmpdir]) (by simpa using hle)]
          simp

lemma dictInsert_fresh {store : List (String × Job)} {k : String}
    (h : k ∉ storeKeys store) (v : Job) :
    dictInsert store k v = store ++ [(k, v)] := by
  unfold dictInsert
  rw [if_neg]
  intro hc
  rw [List.any_eq_true] at hc
  obtain ⟨p, hp, he⟩ := hc
  rw [decide_eq_true_eq] at he
  exact h (by simpa [storeKeys, he] using List.mem_map_of_mem Prod.fst hp)

lemma store_new_job_length_le (s : RegState) (token url : String) (d : Nat) :
    (store_new_job s token url d).store.length ≤ 50 := by
  unfold store_new_job
  by_cases h : 50 < (dictInsert s.store token ⟨url, d⟩).length
  · rw [if_pos h,
      evictKeys_take _ (dictInsert s.store token ⟨url, d⟩) s.released
        (by omega)]
    simp
    omega
  · rw [if_neg h]
    show (dictInsert s.store token ⟨url, d⟩).length ≤ 50
    omega

lemma store_new_job_fresh_small {s : RegState} {token url : String}
    {d : Nat} (h : token ∉ storeKeys s.store) (hlen : s.store.length ≤ 49) :
    store_new_job s token url d =
      ⟨s.store ++ [(token, ⟨url, d⟩)], s.released⟩ := by
  unfold store_new_job
  rw [dictInsert_fresh h]
  rw [if_neg (by simp; omega)]

lemma store_new_job_fresh_full {s : RegState} {token url : String} {d : Nat}
    {q : String × Job} {rest : List (String × Job)}
    (h : token ∉ storeKeys s.store) (hq : s.store = q :: rest)
    (hlen : s.store.length = 50) :
    store_new_job s token url d =
      ⟨rest ++ [(token, ⟨url, d⟩)], s.released ++ [q.2.tmpdir]⟩ := by
  unfold store_new_job
  rw [dictInsert_fresh h]
  have hl : (s.store ++ [(token, Job.mk url d)]).length = 51 := by
    simp [hlen]
  have ht : (s.store ++ [(token, Job.mk url d)]).length - 50 = 1 := by
    rw [hl]
  rw [if_pos (by omega), ht,
    evictKeys_take 1 (s.store ++ [(token, Job.mk url d)]) s.released
      (by omega), hq]
  simp

lemma storeKeys_map_entryOf (m : List (String × String × Nat)) :
    storeKeys (m.map entryOf) = m.map Prod.fst := by
  unfold storeKeys
  rw [List.map_map]
  rfl

lemma insertAll_append (s : RegState) (l : List (String × String × Nat))
    (a : String × String × Nat) :
    insertAll s (l ++ [a]) = store_new_job (insertAll s l) a.1 a.2.1 a.2.2 := by
  simp [insertAll, List.foldl_append]

lemma insertAll_char : ∀ jobs : List (String × String × Nat),
    (jobs.map Prod.fst).Nodup →
    insertAll ⟨[], []⟩ jobs =
      ⟨(jobs.drop (jobs.length - 50)).map entryOf,
       (jobs.take (jobs.length - 50)).map (fun j => j.2.2)⟩ := by
  intro jobs
  induction jobs using List.reverseRecOn with
  | nil => intro _; rfl
  | append_singleton l a ih =>
      intro hnd
      rw [List.map_append] at hnd
      obtain ⟨hnd1, _, hdisj⟩ := List.nodup_append.mp hnd
      have hmem : a.1 ∉ l.map Prod.fst := fun hc => hdisj hc (by simp)
      rw [insertAll_append, ih hnd1]
      by_cases hlen : l.length ≤ 49
      · have h0 : l.length - 50 = 0 := by omega
        have h0' : (l ++ [a]).length - 50 = 0 := by simp; omega
        rw [h0, h0']
        simp only [List.drop_zero, List.take_zero, List.map_nil]
        have hfresh : a.1 ∉ storeKeys (l.map entryOf) := by
          rw [storeKeys_map_entryOf]; exact hmem
        rw [store_new_job_fresh_small hfresh (by simp; omega)]
        simp [entryOf]
      · have hk : l.length - 50 + 50 = l.length := by omega
        cases hdrop : l.drop (l.length - 50) with
        | nil =>
            exfalso
            have := List.length_drop (l.length - 50) l
            rw [hdrop] at this
            simp at this
            omega
        | cons x xs =>
            have hfresh : a.1 ∉ storeKeys ((l.drop (l.length - 50)).map
                entryOf) := by
              rw [storeKeys_map_entryOf]
              intro hc
              exact hmem (((List.drop_sublist _ _).map Prod.fst).subset hc)
            have hlen50 : ((l.drop (l.length - 50)).map entryOf).length
                = 50 := by
              simp
              omega
            rw [hdrop] at hfresh hlen50
            rw [List.map_cons] at hlen50
            rw [store_new_job_fresh_full hfresh rfl hlen50]
            have hxs : xs = l.drop (l.length - 50 + 1) := by
              rw [← List.tail_drop, hdrop]
              rfl
            have hta : (l ++ [a]).length - 50 = l.length - 50 + 1 := by
              simp
              omega
            have htake : l.take (l.length - 50 + 1)
                = l.take (l.length - 50) ++ [x] := by
              rw [List.take_succ]
              congr 1
              have hhd : l[l.length - 50]? = some x := by
                rw [← List.head?_drop, hdrop]
                rfl
              rw [hhd]
              rfl
            refine congrArg₂ RegState.mk ?_ ?_
            · rw [hta, List.drop_append_of_le_length (by omega), ← hxs,
                List.map_append]
              rfl
            · rw [hta, List.take_append_of_le_length (by omega), htake,
                List.map_append]
              rfl

/-- C2: one `store_new_job` call always leaves at most 50 live jobs; along
any fresh-token insertion sequence every intermediate registry stays within
the bound; and inserting 50 + k fresh-token jobs into an empty registry
leaves exactly the last 50 live, with the k oldest evicted in insertion
order and each evicted job's scratch handle released exactly once (the
release trace is exactly the k oldest handles, in order). -/
theorem c2_registry_capacity_eviction :
    (∀ (s : RegState) (token url : String) (d : Nat),
      (store_new_job s token url d).store.length ≤ 50) ∧
    (∀ (jobs : List (String × String × Nat)) (m : Nat),
      (jobs.map Prod.fst).Nodup →
      (insertAll ⟨[], []⟩ (jobs.take m)).store.length ≤ 50) ∧
    (∀ (jobs : List (String × String × Nat)) (k : Nat),
      (jobs.map Prod.fst).Nodup → jobs.length = 50 + k →
      (insertAll ⟨[], []⟩ jobs).store = (jobs.drop k).map entryOf ∧
      (insertAll ⟨[], []⟩ jobs).released =
        (jobs.take k).map (fun j => j.2.2)) := by
  refine ⟨fun s token url d => store_new_job_length_le s token url d,
    ?_, ?_⟩
  · intro jobs m hnd
    have hnd2 : ((jobs.take m).map Prod.fst).Nodup := by
      rw [List.map_take]
      exact List.Nodup.sublist (List.take_sublist _ _) hnd
    rw [insertAll_char _ hnd2]
    simp
    omega
  · intro jobs k hnd hlen
    rw [insertAll_char jobs hnd, hlen]
    have hk : 50 + k - 50 = k := by omega
    rw [hk]
    exact ⟨rfl, rfl⟩

/-- C2 witness: 52 fresh-token insertions leave 50 live jobs and release
exactly the two oldest scratch handles, in order. -/
theorem c2_registry_capacity_eviction_witness :
    (insertAll ⟨[], []⟩ ((List.range 52).map
        (fun i => (String.mk (List.replicate i 'a'), "u", i)))).released
      = [0, 1] ∧
    (insertAll ⟨[], []⟩ ((List.range 52).map
        (fun i => (String.mk (List.replicate i 'a'), "u", i)))).store.length
      = 50 := by
  have h := c2_registry_capacity_eviction.2.2
    ((List.range 52).map (fun i => (String.mk (List.replicate i 'a'), "u", i)))
    2 (by decide) (by decide)
  exact ⟨h.2.trans (by decide), by rw [h.1]; decide⟩

/-- C4 witness: two video timeouts then a non-timeout video failure still
reach the document phase, and with three document timeouts the delivery
raises the timeout. -/
theorem c4_delivery_retry_policy_witness :
    (sendWithRetries (fun n => if n < 2 then Outcome.timedOut
        else Outcome.otherError) (fun _ => Outcome.timedOut)).1.take 7 =
      [Ev.sendAction, Ev.tryVideo 0, Ev.sleep 2, Ev.tryVideo 1, Ev.sleep 4,
       Ev.tryVideo 2, Ev.tryDoc 0] ∧
    (sendWithRetries (fun n => if n < 2 then Outcome.timedOut
        else Outcome.otherError) (fun _ => Outcome.timedOut)).2 =
      DeliverResult.raisedTimeout :=
  ⟨(c4_delivery_retry_policy
      (fun n => if n < 2 then Outcome.timedOut else Outcome.otherError)
      (fun _ => Outcome.timedOut)).2.2.2.2.1 (by decide) (by decide)
      (by decide),
   (c4_delivery_retry_policy
      (fun n => if n < 2 then Outcome.timedOut else Outcome.otherError)
      (fun _ => Outcome.timedOut)).2.2.2.2.2.2.1 (by decide) (by decide)
      (by decide) (by decide) (by decide) (by decide)⟩

example : menuFlat [240, 360, 720, 2160] =
    [Btn.height 240, Btn.height 360, Btn.height 720, Btn.height 2160,
     Btn.best] := by decide

example : build_format_string (some 720) =
    "bestvideo*[height<=?720]+bestaudio/best[height<=?720]" := by rfl

example : ¬ specHeightExprShape (build_format_string (some 720)) := by decide

lemma guardedBlock_spec (env : ChoiceEnv) (reg1 : RegState) (job : Job)
    (fmt : String) :
    (guardedBlock env reg1 job fmt).reg.store = reg1.store ∧
    (guardedBlock env reg1 job fmt).reg.released =
      reg1.released ++ [job.tmpdir] ∧
    (guardedBlock env reg1 job fmt).fetches = [fmt] ∧
    (guardedBlock env reg1 job fmt).raised = false ∧
    Msg.invalidButton ∉ (guardedBlock env reg1 job fmt).msgs ∧
    Msg.expired ∉ (guardedBlock env reg1 job fmt).msgs := by
  unfold guardedBlock
  rcases hf : env.fetch with _ | (_ | info)
  · simp
  · by_cases h1 : env.editOk 1 <;> simp [h1]
  · rcases hp : pick_filename_from_dir env.files
        (orStr (narrowInfo info).id (orStr (narrowInfo info).display_id ""))
      with _ | f
    · by_cases h1 : env.editOk 1 <;> simp [hp, h1]
    · by_cases hfe : env.fileExists = false
      · by_cases h1 : env.editOk 1 <;> simp [hp, h1, hfe]
      · rcases hs : (sendWithRetries env.video env.doc).2 <;>
          by_cases h1 : env.editOk 1 <;> by_cases h2 : env.editOk 2 <;>
            simp [hp, hs, h1, h2, hfe]

lemma dictInsert_mem (store : List (String × Job)) (k : String) (v : Job)
    (hmem : k ∈ storeKeys store) :
    dictInsert store k v =
      store.map (fun p => if p.1 = k then (k, v) else p) := by
  unfold dictInsert
  rw [if_pos]
  rw [List.any_eq_true]
  unfold storeKeys at hmem
  obtain ⟨p, hp, he⟩ := List.mem_map.mp hmem
  exact ⟨p, hp, by simp [he]⟩

/-- C9 counterexample: `store_new_job` makes no freshness check — handed a
token that is already a key of the registry, it silently overwrites the
existing binding in place, the size stays 1, and the overwritten job's
scratch handle (1) is never released. -/
theorem c9_token_guarantee_counterexample :
    "t" ∈ storeKeys (([("t", ⟨"u1", 1⟩)] : List (String × Job))) ∧
    store_new_job ⟨[("t", ⟨"u1", 1⟩)], []⟩ "t" "u2" 2 =
      ⟨[("t", ⟨"u2", 2⟩)], []⟩ := ⟨by decide, by decide⟩

/-- C9 amended: the token is drawn from `secrets.token_urlsafe(8)` (8
random URL-safe-encoded bytes) with no existence check, so uniqueness is
only probabilistic: a fresh token is appended as a new binding, while a
colliding token overwrites the existing job in place — same size, same key
set, new value bound, and nothing released (the overwritten job's scratch
directory is simply dropped). -/
theorem c9_token_guarantee_amended :
    (∀ (s : RegState) (token url : String) (d : Nat),
      token ∉ storeKeys s.store → s.store.length ≤ 49 →
      store_new_job s token url d =
        ⟨s.store ++ [(token, ⟨url, d⟩)], s.released⟩) ∧
    (∀ (s : RegState) (token url : String) (d : Nat),
      token ∈ storeKeys s.store → s.store.length ≤ 50 →
      (store_new_job s token url d).store.length = s.store.length ∧
      storeKeys (store_new_job s token url d).store = storeKeys s.store ∧
      (token, Job.mk url d) ∈ (store_new_job s token url d).store ∧
      (store_new_job s token url d).released = s.released) := by
  refine ⟨fun s token url d h hl => store_new_job_fresh_small h hl, ?_⟩
  intro s token url d hmem hlen
  have hins := dictInsert_mem s.store token ⟨url, d⟩ hmem
  have hlen2 : (dictInsert s.store token ⟨url, d⟩).length
      = s.store.length := by
    rw [hins]
    simp
  have hite : store_new_job s token url d =
      ⟨dictInsert s.store token ⟨url, d⟩, s.released⟩ := by
    unfold store_new_job
    rw [if_neg (by omega)]
  rw [hite]
  refine ⟨hlen2, ?_, ?_, rfl⟩
  · rw [hins]
    unfold storeKeys
    rw [List.map_map]
    apply List.map_congr_left
    intro p _
    by_cases e : p.1 = token <;> simp [Function.comp, e]
  · rw [hins]
    unfold storeKeys at hmem
    obtain ⟨p, hp, he⟩ := List.mem_map.mp hmem
    exact List.mem_map.mpr ⟨p, hp, by simp [he]⟩

/-- C9 witness: the amended collision behaviour applied at a concrete
one-entry registry whose sole token collides with the generated one. -/
theorem c9_token_guarantee_witness :
    (store_new_job ⟨[("t", ⟨"u1", 1⟩)], []⟩ "t" "u2" 2).store.length = 1 ∧
    (store_new_job ⟨[("t", ⟨"u1", 1⟩)], []⟩ "t" "u2" 2).released = [] := by
  have h := c9_token_guarantee_amended.2 ⟨[("t", ⟨"u1", 1⟩)], []⟩ "t" "u2" 2
    (by decide) (by decide)
  exact ⟨h.1.trans (by decide), h.2.2.2⟩

lemma choice_good_path (env : ChoiceEnv) (reg : RegState)
    (payload token mode : String) (job : Job)
    (ha : env.answerOk = true)
    (hp : pySplit2 payload = ["dl", token, mode])
    (hnd : (storeKeys reg.store).Nodup)
    (hm : (token, job) ∈ reg.store)
    (hurl : job.url ≠ "")
    (he0 : env.editOk 0 = true) :
    on_download_choice env reg payload =
      ⟨(guardedBlock env ⟨(dictPop reg.store token).2, reg.released⟩ job
          (build_format_string (chosen_height_of_mode mode))).reg,
       Msg.downloading ::
         (guardedBlock env ⟨(dictPop reg.store token).2, reg.released⟩ job
           (build_format_string (chosen_height_of_mode mode))).msgs,
       (guardedBlock env ⟨(dictPop reg.store token).2, reg.released⟩ job
         (build_format_string (chosen_height_of_mode mode))).fetches,
       (guardedBlock env ⟨(dictPop reg.store token).2, reg.released⟩ job
         (build_format_string (chosen_height_of_mode mode))).raised⟩ := by
  have hpop : (dictPop reg.store token).1 = some job :=
    dictPop_fst_of_mem hnd hm
  simp [on_download_choice, ha, hp, pop_job, hpop, hurl, he0]

/-- C7: `pop_job` removes and returns a present token's job, leaves the
registry unchanged and signals absence for an absent token, a second take
of the same token always signals absence, and the callback handler answers
an absent token with the expiry message, no fetch and no state change. -/
theorem c7_take_semantics :
    (∀ (s : RegState) (token : String) (job : Job),
      (storeKeys s.store).Nodup → (token, job) ∈ s.store →
      (pop_job s token).1 = some job ∧
      token ∉ storeKeys (pop_job s token).2.store ∧
      (pop_job (pop_job s token).2 token).1 = none) ∧
    (∀ (s : RegState) (token : String),
      token ∉ storeKeys s.store → pop_job s token = (none, s)) ∧
    (∀ (env : ChoiceEnv) (reg : RegState) (payload token mode : String),
      env.answerOk = true →
      pySplit2 payload = ["dl", token, mode] →
      token ∉ storeKeys reg.store →
      (on_download_choice env reg payload).msgs = [Msg.expired] ∧
      (on_download_choice env reg payload).fetches = [] ∧
      (on_download_choice env reg payload).reg = reg) := by
  have hab : ∀ (s : RegState) (token : String),
      token ∉ storeKeys s.store → pop_job s token = (none, s) := by
    intro s token h
    unfold pop_job
    rw [dictPop_not_mem h]
  refine ⟨?_, hab, ?_⟩
  · intro s token job hnd hm
    have h1 : (dictPop s.store token).1 = some job :=
      dictPop_fst_of_mem hnd hm
    have h3 : token ∉ storeKeys (dictPop s.store token).2 := by
      rw [storeKeys_dictPop]
      exact List.Nodup.not_mem_erase hnd
    refine ⟨h1, h3, ?_⟩
    have h4 := hab ⟨(dictPop s.store token).2, s.released⟩ token h3
    show (pop_job ⟨(dictPop s.store token).2, s.released⟩ token).1 = none
    rw [h4]
  · intro env reg payload token mode ha hp hnot
    have hpop := hab reg token hnot
    simp [on_download_choice, ha, hp, hpop]

/-- C7 witness: a token absent from an empty registry yields the expiry
message, no fetch and no state change. -/
theorem c7_take_semantics_witness :
    (on_download_choice
        ⟨true, fun _ => true, some none, [], true,
         fun _ => Outcome.success, fun _ => Outcome.success⟩
        ⟨[], []⟩ "dl|gone|best").msgs = [Msg.expired] ∧
    (on_download_choice
        ⟨true, fun _ => true, some none, [], true,
         fun _ => Outcome.success, fun _ => Outcome.success⟩
        ⟨[], []⟩ "dl|gone|best").fetches = [] := by
  have h := c7_take_semantics.2.2
    ⟨true, fun _ => true, some none, [], true,
     fun _ => Outcome.success, fun _ => Outcome.success⟩
    ⟨[], []⟩ "dl|gone|best" "gone" "best" rfl (by decide) (by decide)
  exact ⟨h.1, h.2.1⟩

/-- C8: a malformed callback payload — fewer than three pipe-separated
fields after the 2-bounded split, or a leading tag other than `dl` — gets
exactly the invalid-button-data reply: registry and release trace
untouched, no fetch attempted. -/
theorem c8_malformed_payload_no_state_change :
    ∀ (env : ChoiceEnv) (reg : RegState) (payload : String),
      env.answerOk = true →
      ((pySplit2 payload).length ≠ 3 ∨ (pySplit2 payload).headI ≠ "dl") →
      (on_download_choice env reg payload).reg = reg ∧
      (on_download_choice env reg payload).msgs = [Msg.invalidButton] ∧
      (on_download_choice env reg payload).fetches = [] := by
  intro env reg payload ha hbad
  rcases hsp : pySplit2 payload with _ | ⟨a, _ | ⟨b, _ | ⟨c, rest⟩⟩⟩
  · simp [on_download_choice, ha, hsp]
  · simp [on_download_choice, ha, hsp]
  · simp [on_download_choice, ha, hsp]
  · cases rest with
    | nil =>
        rw [hsp] at hbad
        have hne : a ≠ "dl" := by
          rcases hbad with h | h
          · simp at h
          · simpa using h
        simp [on_download_choice, ha, hsp, hne]
    | cons e rest2 =>
        simp [on_download_choice, ha, hsp]

/-- C8 witness: a payload with the wrong field count is rejected with the
invalid-button message and no state change. -/
theorem c8_malformed_payload_no_state_change_witness :
    (on_download_choice
        ⟨true, fun _ => true, some none, [], true,
         fun _ => Outcome.success, fun _ => Outcome.success⟩
        ⟨[("t", ⟨"u", 7⟩)], []⟩ "nope").reg = ⟨[("t", ⟨"u", 7⟩)], []⟩ ∧
    (on_download_choice
        ⟨true, fun _ => true, some none, [], true,
         fun _ => Outcome.success, fun _ => Outcome.success⟩
        ⟨[("t", ⟨"u", 7⟩)], []⟩ "nope").msgs = [Msg.invalidButton] := by
  have h := c8_malformed_payload_no_state_change
    ⟨true, fun _ => true, some none, [], true,
     fun _ => Outcome.success, fun _ => Outcome.success⟩
    ⟨[("t", ⟨"u", 7⟩)], []⟩ "nope" rfl (by decide)
  exact ⟨h.1, h.2.1⟩

/-- C10: with a live token and a mode that is neither `best` nor `h`
followed by a nonzero parseable int (a failed parse or the falsy height 0),
the handler does not reject: no invalid-data or expiry message, the job is
consumed, and the fetch runs with the unconstrained best expression. -/
theorem c10_unrecognized_mode_falls_back_to_best :
    ∀ (env : ChoiceEnv) (reg : RegState) (payload token mode : String)
      (job : Job),
      env.answerOk = true → env.editOk 0 = true →
      pySplit2 payload = ["dl", token, mode] →
      (storeKeys reg.store).Nodup → (token, job) ∈ reg.store →
      job.url ≠ "" → mode ≠ "best" →
      (chosen_height_of_mode mode = none ∨
        chosen_height_of_mode mode = some 0) →
      (on_download_choice env reg payload).fetches =
        ["bestvideo*+bestaudio/best"] ∧
      Msg.invalidButton ∉ (on_download_choice env reg payload).msgs ∧
      Msg.expired ∉ (on_download_choice env reg payload).msgs ∧
      token ∉ storeKeys (on_download_choice env reg payload).reg.store := by
  intro env reg payload token mode job ha he0 hp hnd hm hurl hmode hch
  rw [choice_good_path env reg payload token mode job ha hp hnd hm hurl he0]
  have hfmt : build_format_string (chosen_height_of_mode mode) =
      "bestvideo*+bestaudio/best" := by
    rcases hch with h | h <;> rw [h] <;> rfl
  have hs := guardedBlock_spec env ⟨(dictPop reg.store token).2, reg.released⟩
    job (build_format_string (chosen_height_of_mode mode))
  refine ⟨?_, ?_, ?_, ?_⟩
  · rw [show (⟨(guardedBlock env ⟨(dictPop reg.store token).2, reg.released⟩
        job (build_format_string (chosen_height_of_mode mode))).reg, _, _, _⟩
        : RunRes).fetches = _ from rfl, hs.2.2.1, hfmt]
  · simp only [RunRes.msgs, List.mem_cons, not_or]
    exact ⟨by simp, hs.2.2.2.2.1⟩
  · simp only [RunRes.msgs, List.mem_cons, not_or]
    exact ⟨by simp, hs.2.2.2.2.2⟩
  · show token ∉ storeKeys (guardedBlock env
      ⟨(dictPop reg.store token).2, reg.released⟩ job
      (build_format_string (chosen_height_of_mode mode))).reg.store
    rw [hs.1]
    show token ∉ storeKeys (dictPop reg.store token).2
    rw [storeKeys_dictPop]
    exact List.Nodup.not_mem_erase hnd

/-- C10 witness: a live token with the unparseable mode `hx` is consumed
and fetched with the unconstrained best expression, with no rejection. -/
theorem c10_unrecognized_mode_falls_back_to_best_witness :
    (on_download_choice
        ⟨true, fun _ => true, some none, [], true,
         fun _ => Outcome.success, fun _ => Outcome.success⟩
        ⟨[("t", ⟨"u", 7⟩)], []⟩ "dl|t|hx").fetches =
      ["bestvideo*+bestaudio/best"] ∧
    "t" ∉ storeKeys (on_download_choice
        ⟨true, fun _ => true, some none, [], true,
         fun _ => Outcome.success, fun _ => Outcome.success⟩
        ⟨[("t", ⟨"u", 7⟩)], []⟩ "dl|t|hx").reg.store := by
  have h := c10_unrecognized_mode_falls_back_to_best
    ⟨true, fun _ => true, some none, [], true,
     fun _ => Outcome.success, fun _ => Outcome.success⟩
    ⟨[("t", ⟨"u", 7⟩)], []⟩ "dl|t|hx" "t" "hx" ⟨"u", 7⟩
    rfl rfl (by decide) (by decide) (by decide) (by decide) (by decide)
    (Or.inl (by decide))
  exact ⟨h.1, h.2.2.2⟩

/-- C1 counterexample: on the unexpected-exception path where the `⬇️`
status edit (source line 301, outside the `try`/`finally`) raises, the
selection handler consumes the job (the registry is left empty) yet
records zero releases of its scratch directory — the directory is leaked,
refuting "each path through the selection handler releases the job's
scratch directory exactly once". -/
theorem c1_scratch_release_counterexample :
    (on_download_choice
        ⟨true, fun _ => false, some none, [], true,
         fun _ => Outcome.success, fun _ => Outcome.success⟩
        ⟨[("t", ⟨"u", 7⟩)], []⟩ "dl|t|best").raised = true ∧
    (on_download_choice
        ⟨true, fun _ => false, some none, [], true,
         fun _ => Outcome.success, fun _ => Outcome.success⟩
        ⟨[("t", ⟨"u", 7⟩)], []⟩ "dl|t|best").reg.released = [] ∧
    (on_download_choice
        ⟨true, fun _ => false, some none, [], true,
         fun _ => Outcome.success, fun _ => Outcome.success⟩
        ⟨[("t", ⟨"u", 7⟩)], []⟩ "dl|t|best").reg.store = [] := by
  refine ⟨by decide, by decide, by decide⟩

/-- C1 amended: provided the status-message edits themselves do not raise,
every selection-handler path that consumes a job (success, fetch failure,
missing file, delivery failure, swallowed exception — any fetch / file /
send outcome) releases the job's scratch directory exactly once, and every
probe-failure path of the message handler releases the fresh scratch
directory exactly once without storing a job.  (When the pre-fetch status
edit raises, the counterexample shows the directory leaks.) -/
theorem c1_scratch_release_amended :
    (∀ (env : ChoiceEnv) (reg : RegState) (payload token mode : String)
      (job : Job),
      env.answerOk = true → (∀ n, env.editOk n = true) →
      pySplit2 payload = ["dl", token, mode] →
      (storeKeys reg.store).Nodup → (token, job) ∈ reg.store →
      job.url ≠ "" →
      (on_download_choice env reg payload).reg.released
        = reg.released ++ [job.tmpdir] ∧
      (on_download_choice env reg payload).raised = false) ∧
    (∀ (env : TextEnv) (reg : RegState) (text : String) (nextTmp : Nat),
      (∀ n, env.replyOk n = true) →
      (extract_first_url text).isSome = true →
      (env.probe = none ∨ env.probe = some none) →
      (handle_text env reg text nextTmp).reg.released
        = reg.released ++ [nextTmp] ∧
      (handle_text env reg text nextTmp).reg.store = reg.store ∧
      (handle_text env reg text nextTmp).raised = false) := by
  constructor
  · intro env reg payload token mode job ha he hp hnd hm hurl
    rw [choice_good_path env reg payload token mode job ha hp hnd hm hurl
      (he 0)]
    have hs := guardedBlock_spec env
      ⟨(dictPop reg.store token).2, reg.released⟩ job
      (build_format_string (chosen_height_of_mode mode))
    exact ⟨hs.2.1, hs.2.2.2.1⟩
  · intro env reg text nextTmp hre hurl hpr
    obtain ⟨u, hu⟩ := Option.isSome_iff_exists.mp hurl
    rcases hpr with h | h <;>
      simp [handle_text, hu, h, hre 0, hre 1]

/-- C1 witness: with all edits succeeding, a fetch that returns no data
releases the consumed job's scratch directory exactly once; a failed probe
releases the fresh scratch directory exactly once. -/
theorem c1_scratch_release_witness :
    (on_download_choice
        ⟨true, fun _ => true, some none, [], true,
         fun _ => Outcome.success, fun _ => Outcome.success⟩
        ⟨[("t", ⟨"u", 7⟩)], []⟩ "dl|t|best").reg.released = [7] ∧
    (handle_text ⟨fun _ => true, some none, "tok"⟩ ⟨[], []⟩
        "see https://x.com/a" 5).reg.released = [5] := by
  have h1 := (c1_scratch_release_amended.1
    ⟨true, fun _ => true, some none, [], true,
     fun _ => Outcome.success, fun _ => Outcome.success⟩
    ⟨[("t", ⟨"u", 7⟩)], []⟩ "dl|t|best" "t" "best" ⟨"u", 7⟩
    rfl (fun n => rfl) (by decide) (by decide) (by decide) (by decide)).1
  have h2 := (c1_scratch_release_amended.2
    ⟨fun _ => true, some none, "tok"⟩ ⟨[], []⟩ "see https://x.com/a" 5
    (fun n => rfl) (by decide) (Or.inr rfl)).1
  exact ⟨h1, h2⟩
